import Mathlib

/-!
Verification development for the SequenceParsing engine
(`SequenceParsing.cpp`): a shallow embedding of its pattern compiler,
variable validator, filename tokenizer, per-file pattern matcher and
sequence aggregator, together with theorems settling the specification
claims about them.

Filenames and patterns are modelled as `List Char`; C `int` values are
modelled as `Int`, with the `INT_MAX` / `INT_MIN` clamping of
`std::stringstream` extraction made explicit where the source relies on it.
File-system probing (directory listing, byte-size estimation) is external
I/O and is not modelled; none of the claims depends on it.
-/

namespace SequenceParsing

/-- C `INT_MAX`, used by the source via `<climits>`. -/
def INT_MAX : Int := 2147483647

/-- C `INT_MIN`, used by the source via `<climits>`. -/
def INT_MIN : Int := -2147483648

/-! ## Primitive string helpers (SequenceParsing.cpp lines 186-265) -/

/-- `my_equal`: case-insensitive character comparison via `toupper` (ASCII). -/
def ciCharEq (a b : Char) : Bool := a.toUpper == b.toUpper

/-- Case-insensitive "needle is a prefix of hay" check, the element step of
`std::search` with `my_equal`. -/
def ciPrefixAt : List Char → List Char → Bool
  | [], _ => true
  | _ :: _, [] => false
  | c :: cs, d :: ds => ciCharEq c d && ciPrefixAt cs ds

/-- `ci_find_substr`: position of the first case-insensitive occurrence of
`toSearch` in `from_` (ignores any start position, as the source does). -/
def ciFindSubstr (from_ toSearch : List Char) : Option Nat :=
  (List.range (from_.length + 1)).find? (fun p => ciPrefixAt toSearch (from_.drop p))

/-- `std::string::find(toSearch, pos)`: first occurrence at position `≥ pos`,
case-sensitively. -/
def csFind (from_ toSearch : List Char) (pos : Nat) : Option Nat :=
  (List.range (from_.length + 1)).find?
    (fun p => decide (pos ≤ p) && toSearch.isPrefixOf (from_.drop p))

/-- `findStr`: dispatches to the case-sensitive `std::string::find` (which
honours `pos`) or to `ci_find_substr` (which ignores `pos`). -/
def findStr (from_ toSearch : List Char) (pos : Nat) (caseSensitive : Bool) : Option Nat :=
  if caseSensitive then csFind from_ toSearch pos else ciFindSubstr from_ toSearch

/-- `startsWith` (case-insensitive by default in the source; this is the
default-argument form actually used by `checkVariable`). -/
def startsWith (s pre : List Char) : Bool := findStr s pre 0 false == some 0

/-- `endsWith`: case-sensitive suffix test. -/
def endsWith (s suf : List Char) : Bool :=
  decide (s.length ≥ suf.length) && (s.drop (s.length - suf.length) == suf)

/-- One pass of the `removeAllOccurences` loop; `fuel` bounds the iteration
count (each successful removal shrinks the string by the nonempty needle's
length, so `s.length + 1` steps always suffice at the call sites). -/
def removeAllOccGo (toRemove : List Char) (caseSensitive : Bool) :
    Nat → List Char → Nat → List Char
  | 0, s, _ => s
  | fuel + 1, s, i =>
    match findStr s toRemove i caseSensitive with
    | none => s
    | some j =>
      removeAllOccGo toRemove caseSensitive fuel (s.take j ++ s.drop (j + toRemove.length)) j

/-- `removeAllOccurences`: repeatedly erase the first occurrence of
`toRemove` from `s` (resuming from the erase position in the case-sensitive
mode; the case-insensitive search restarts from the beginning every time,
exactly as the source's `ci_find_substr` ignores the position). -/
def removeAllOccurences (s toRemove : List Char) (caseSensitive : Bool) : List Char :=
  removeAllOccGo toRemove caseSensitive (s.length + 1) s 0

/-- Characters `std::isspace` skips during stream extraction. -/
def isSpaceChar (c : Char) : Bool :=
  c == ' ' || c == '\t' || c == '\n' || c == '\x0b' || c == '\x0c' || c == '\r'

/-- Accumulate the decimal value of the leading digit run of `s`. -/
def digitsToNat : List Char → Nat → Nat
  | [], acc => acc
  | c :: cs, acc => if c.isDigit then digitsToNat cs (acc * 10 + (c.toNat - 48)) else acc

/-- Core of `stringToInt` after whitespace skipping: optional sign, then a
digit run; extraction failure leaves 0; overflow clamps to `INT_MAX` /
`INT_MIN` exactly as `std::stringstream` extraction does (the source's
`try`/`catch` never fires because stream exceptions are not enabled). -/
def stringToIntCore : List Char → Int
  | [] => 0
  | c :: rest =>
    if c == '-' then
      if (rest.headD ' ').isDigit then max (-(Int.ofNat (digitsToNat rest 0))) INT_MIN else 0
    else if c == '+' then
      if (rest.headD ' ').isDigit then min (Int.ofNat (digitsToNat rest 0)) INT_MAX else 0
    else min (Int.ofNat (digitsToNat (c :: rest) 0)) INT_MAX

/-- `stringToInt`: `std::stringstream` extraction of an `int`. -/
def stringToInt (s : List Char) : Int := stringToIntCore (s.dropWhile isSpaceChar)

/-- Decimal digit character for `n < 10`. -/
def natDigitChar (n : Nat) : Char := Char.ofNat (48 + n)

/-- Fuel-driven decimal rendering loop (`fuel = n + 1` always suffices). -/
def natToCharsGo : Nat → Nat → List Char → List Char
  | 0, _, acc => acc
  | fuel + 1, n, acc =>
    if n < 10 then natDigitChar n :: acc
    else natToCharsGo fuel (n / 10) (natDigitChar (n % 10) :: acc)

/-- Decimal rendering of a natural number. -/
def natToChars (n : Nat) : List Char := natToCharsGo (n + 1) n []

/-- `stringFromInt`: decimal rendering of an `int`. -/
def stringFromInt (n : Int) : List Char :=
  if n < 0 then '-' :: natToChars n.natAbs else natToChars n.toNat

/-- Last index of character `c` in `s` (`std::string::find_last_of`). -/
def findLastOf (s : List Char) (c : Char) : Option Nat :=
  (List.range s.length).foldl
    (fun acc p => if s.getD p ' ' == c then some p else acc) none

/-! ## Variable Validator: `checkVariable` (SequenceParsing.cpp lines 304-402)

Given a variable token (`%v`, `%V`, `####`, `%0Nd`, `%d`), the substring
matched against it and a semantic kind (`0` = frame number, `1` = short
view, `2` = long view), validates the substring and extracts its value.
`none` models both `return false` and the `throw std::invalid_argument`
of the final (unrecognized-token) branch. -/

def checkVariable (variableToken sub : List Char) (type : Int) : Option Int :=
  if variableToken = "%v".data then
    if type ≠ 1 then none
    else if sub = "r".data then some 1
    else if sub = "l".data then some 0
    else if startsWith sub "view".data then
      some (stringToInt (removeAllOccurences sub "view".data false))
    else none
  else if variableToken = "%V".data then
    if type ≠ 2 then none
    else if sub = "right".data then some 1
    else if sub = "left".data then some 0
    else if startsWith sub "view".data then
      some (stringToInt (removeAllOccurences sub "view".data false))
    else none
  else if variableToken.contains '#' then
    if type ≠ 0 then none
    else if sub.length < variableToken.length then none
    else
      let prepending0s := (sub.takeWhile (fun c => c == '0')).length
      if sub.length > variableToken.length ∧ prepending0s > 0 then none
      else some (stringToInt sub)
  else if startsWith variableToken "%0".data ∧ endsWith variableToken "d".data then
    if type ≠ 0 then none
    else
      let extraPaddingCount :=
        stringToInt (removeAllOccurences
          (removeAllOccurences variableToken "%0".data false) "d".data false)
      if (sub.length : Int) < extraPaddingCount then none
      else
        let prepending0s := (sub.takeWhile (fun c => c == '0')).length
        if (sub.length : Int) > extraPaddingCount ∧ prepending0s > 0 then none
        else some (stringToInt sub)
  else if variableToken = "%d".data then
    some (stringToInt sub)
  else none

/-! ## Pattern Compiler: `extractCommonPartsAndVariablesFromPattern`
(SequenceParsing.cpp lines 79-182)

Scans the un-pathed, extension-free pattern left to right, accumulating a
literal buffer (`commonPart`) and a variable buffer, and emits the ordered
common parts and the ordered `(variable, precedingLiteralCount)` pairs.
Returns `none` exactly where the source returns `false` (a printf-style
field opened inside another one). -/

structure ExtractState where
  inPrintfLikeArg : Bool
  printfLikeArgIndex : Int
  commonPart : List Char
  variableBuf : List Char
  commonCharactersFound : Int
  previousCharIsSharp : Bool
  commonParts : List (List Char)
  variablesByOrder : List (List Char × Int)
deriving DecidableEq

def initExtractState : ExtractState :=
  { inPrintfLikeArg := false, printfLikeArgIndex := 0, commonPart := [],
    variableBuf := [], commonCharactersFound := 0, previousCharIsSharp := false,
    commonParts := [], variablesByOrder := [] }

/-- Flush the pending literal buffer into the common-part list. -/
def flushCommon (st : ExtractState) : ExtractState :=
  if st.commonPart ≠ [] then
    { st with commonParts := st.commonParts ++ [st.commonPart],
              commonCharactersFound := st.commonCharactersFound + st.commonPart.length,
              commonPart := [] }
  else st

/-- Flush the pending variable buffer into the ordered-variable list. -/
def flushVariableBuf (st : ExtractState) : ExtractState :=
  if st.variableBuf ≠ [] then
    { st with variablesByOrder := st.variablesByOrder ++ [(st.variableBuf, st.commonCharactersFound)],
              variableBuf := [] }
  else st

/-- The character-scanning loop of the compiler; `prev` is the character at
index `i - 1` of the pattern (`none` at the start, standing for the
source's `'\0'`). -/
def ecpGo : List Char → Option Char → ExtractState → Option ExtractState
  | [], _, st => some st
  | c :: rest, prev, st =>
    if c == '#' then
      let st := flushCommon st
      let st :=
        if !st.previousCharIsSharp ∧ st.variableBuf ≠ [] then flushVariableBuf st else st
      ecpGo rest (some c) { st with variableBuf := st.variableBuf ++ [c], previousCharIsSharp := true }
    else if c == '%' then
      let next : Char := match rest with | [] => '\x00' | n :: _ => n
      let prevC : Char := match prev with | none => '\x00' | some p => p
      if next == '\x00' then
        ecpGo rest (some c) { st with commonPart := st.commonPart ++ [c] }
      else if prevC == '%' then
        ecpGo rest (some c) { st with commonPart := st.commonPart ++ [c] }
      else if next != '%' then
        if st.inPrintfLikeArg then none
        else
          let st := { st with printfLikeArgIndex := 0, inPrintfLikeArg := true }
          let st := flushCommon st
          let st := flushVariableBuf st
          ecpGo rest (some c) { st with variableBuf := st.variableBuf ++ [c] }
      else
        ecpGo rest (some c) st
    else if (c == 'd' || c == 'v' || c == 'V') && st.inPrintfLikeArg then
      ecpGo rest (some c)
        { st with inPrintfLikeArg := false,
                  variablesByOrder :=
                    st.variablesByOrder ++ [(st.variableBuf ++ [c], st.commonCharactersFound)],
                  variableBuf := [] }
    else if st.inPrintfLikeArg then
      let st := { st with printfLikeArgIndex := st.printfLikeArgIndex + 1,
                          variableBuf := st.variableBuf ++ [c] }
      if c.isAlpha || (st.printfLikeArgIndex == 1 && c != '0') then
        ecpGo rest (some c)
          { st with commonParts := st.commonParts ++ [st.variableBuf],
                    commonCharactersFound := st.commonCharactersFound + st.variableBuf.length,
                    variableBuf := [], inPrintfLikeArg := false }
      else
        ecpGo rest (some c) st
    else
      let st := { st with commonPart := st.commonPart ++ [c] }
      let st := flushVariableBuf st
      ecpGo rest (some c) st

/-- `extractCommonPartsAndVariablesFromPattern`: compile a pattern into its
ordered common (literal) parts and its ordered variables (each paired with
the count of literal characters preceding it). -/
def extractCommonPartsAndVariablesFromPattern
    (patternUnPathedWithoutExt patternExtension : List Char) :
    Option (List (List Char) × List (List Char × Int)) :=
  match ecpGo patternUnPathedWithoutExt none initExtractState with
  | none => none
  | some st =>
    let st := flushCommon st
    let st := flushVariableBuf st
    let parts :=
      if patternExtension ≠ [] then st.commonParts ++ ['.' :: patternExtension]
      else st.commonParts
    some (parts, st.variablesByOrder)

/-! ## Filename Matcher, literal-containment step
(`matchesPattern`, SequenceParsing.cpp lines 417-430)

The loop that requires every common part of the compiled pattern to occur
in the candidate filename.  Translated faithfully: `lastPartPos` is
initialized to `-1` and *never reassigned inside the loop*, so every search
starts at position 0 and the `pos <= lastPartPos` rejection can never
fire. -/

def literalStepGo (filename : List Char) : List (List Char) → Int → Bool
  | [], _ => true
  | part :: rest, lastPartPos =>
    match findStr filename part (if lastPartPos = -1 then 0 else lastPartPos.toNat) true with
    | none => false
    | some pos =>
      if (pos : Int) ≤ lastPartPos then false
      else literalStepGo filename rest lastPartPos

/-- The literal-containment step of the static `matchesPattern`. -/
def matchesPatternLiteralStep (filename : List Char) (commonPartsOrdered : List (List Char)) : Bool :=
  literalStepGo filename commonPartsOrdered (-1)

/-- Modelled from the spec (step 1 of §4.3): each literal token must be
found, case-sensitively, as a substring starting at or after the end
position of the previous literal's match; missing or out-of-order literals
reject.  Used to exhibit the divergence of the source's literal step. -/
def specOrderedLiteralGo (filename : List Char) : List (List Char) → Nat → Bool
  | [], _ => true
  | part :: rest, from_ =>
    match csFind filename part from_ with
    | none => false
    | some pos => specOrderedLiteralGo filename rest (pos + part.length)

/-- Spec-side ordered literal containment. -/
def specOrderedLiteralContainment (filename : List Char) (parts : List (List Char)) : Bool :=
  specOrderedLiteralGo filename parts 0

/-! ## Filename Tokenizer: `FileNameElement`, `FileNameContentPrivate::parse`
(SequenceParsing.cpp lines 647-795) -/

/-- `FileNameElement::Type`. -/
inductive FileNameEltType where
  | TEXT : FileNameEltType
  | FRAME_NUMBER : FileNameEltType
deriving DecidableEq

/-- `FileNameElement`: one text or digit run of a filename. -/
structure FileNameElement where
  data : List Char
  type : FileNameEltType
deriving DecidableEq

/-- The element-splitting loop of `FileNameContentPrivate::parse`: walk the
filename, growing `lastNumberStr` over digits and `lastTextPart` over
non-digits, emitting an element whenever the kind of run changes, and
flushing the pending number then the pending text at the end (at most one
of the two is nonempty at any point). -/
def parseLoop : List Char → List Char → List Char → List FileNameElement
  | [], lastNumberStr, lastTextPart =>
    (if lastNumberStr ≠ [] then [⟨lastNumberStr, .FRAME_NUMBER⟩] else []) ++
    (if lastTextPart ≠ [] then [⟨lastTextPart, .TEXT⟩] else [])
  | c :: rest, lastNumberStr, lastTextPart =>
    if c.isDigit then
      (if lastTextPart ≠ [] then [⟨lastTextPart, .TEXT⟩] else []) ++
        parseLoop rest (lastNumberStr ++ [c]) []
    else
      (if lastNumberStr ≠ [] then [⟨lastNumberStr, .FRAME_NUMBER⟩] else []) ++
        parseLoop rest [] (lastTextPart ++ [c])

/-- The running `hasSingleNumber` flag: the source *toggles* it each time a
`FRAME_NUMBER` element is pushed (`if (!hasSingleNumber) hasSingleNumber =
true; else hasSingleNumber = false;`), replayed here as a fold over the
pushed elements in order. -/
def hasSingleNumberFold (es : List FileNameElement) : Bool :=
  es.foldl
    (fun hsn e =>
      if e.type = .FRAME_NUMBER then (if hsn = false then true else false) else hsn)
    false

/-- Extension extraction (lines 762-769): if the filename contains a `.`,
collect the characters from the end down to (and excluding) the last `.`
(stopping at index 0 regardless). -/
def extensionOf (filename : List Char) : List Char :=
  if filename.contains '.' then (filename.reverse.takeWhile (fun c => c != '.')).reverse
  else []

/-- Pattern generation (lines 771-794): text elements verbatim, each digit
run replaced by `#` repeated to the run's length followed by the 0-based
ordinal of the run among digit runs. -/
def buildPattern : List FileNameElement → Nat → List Char
  | [], _ => []
  | e :: rest, numberIndex =>
    match e.type with
    | .TEXT => e.data ++ buildPattern rest numberIndex
    | .FRAME_NUMBER =>
      List.replicate e.data.length '#' ++ natToChars numberIndex ++
        buildPattern rest (numberIndex + 1)

/-- `removePath` (lines 1040-1055): split an absolute name at the last
`/` (or `\`) into (path including the trailing separator, remainder); the
source removes every case-sensitive occurrence of the path from the
filename, which we replay. Returns `(path, filename)`. -/
def removePath (filename : List Char) : List Char × List Char :=
  match (match findLastOf filename '/' with
         | some p => some p
         | none => findLastOf filename '\\') with
  | none => ([], filename)
  | some pos =>
    let path := filename.take (pos + 1)
    (path, removeAllOccurences filename path true)

/-- `FileNameContent`: the parsed, immutable view of one file path. -/
structure FileNameContent where
  orderedElements : List FileNameElement
  absoluteFileName : List Char
  filePath : List Char
  filename : List Char
  extension : List Char
  hasSingleNumber : Bool
  generatedPattern : List Char
deriving DecidableEq

/-- `FileNameContent(absoluteFilename)`: construct by parsing
(`FileNameContentPrivate::parse`). -/
def FileNameContent.ofAbsolute (absolute : List Char) : FileNameContent :=
  let pf := removePath absolute
  let elems := parseLoop pf.2 [] []
  { orderedElements := elems
    absoluteFileName := absolute
    filePath := pf.1
    filename := pf.2
    extension := extensionOf pf.2
    hasSingleNumber := hasSingleNumberFold elems
    generatedPattern := buildPattern elems 0 }

/-- `FileNameContent::getNumberByIndex`: the digit string of the
`index`-th digit run, if any (lines 865-878). -/
def getNumberByIndexGo : List FileNameElement → Int → Int → Option (List Char)
  | [], _, _ => none
  | e :: rest, index, numbersElementsIndex =>
    if e.type = .FRAME_NUMBER then
      if numbersElementsIndex = index then some e.data
      else getNumberByIndexGo rest index (numbersElementsIndex + 1)
    else getNumberByIndexGo rest index numbersElementsIndex

def FileNameContent.getNumberByIndex (f : FileNameContent) (index : Int) : Option (List Char) :=
  getNumberByIndexGo f.orderedElements index 0

/-! ## `FileNameContent::matchesPattern` (SequenceParsing.cpp lines 889-984) -/

/-- The spurious-padding validity check for a pair of differing digit
strings (lines 911-945): when the lengths differ, the pair is invalid if
the shorter string starts with `0` while being longer than one character,
or if the longer string starts with `0` (the source's inner `while` loop
breaks unconditionally after inspecting index 0). -/
def padValid (a b : List Char) : Bool :=
  if a.length = b.length then true
  else if a.length > b.length then
    if b.headD ' ' == '0' && decide (b.length > 1) then false
    else !(a.headD ' ' == '0')
  else
    if a.headD ' ' == '0' && decide (a.length > 1) then false
    else !(b.headD ' ' == '0')

/-- The element walk of `matchesPattern`: rejects on any kind mismatch or
text mismatch; collects `(ordinal, thisDigits, otherDigits)` for every
digit-run pair that differs textually and passes `padValid`.  `none` models
`return false`. -/
def collectPotential :
    List FileNameElement → List FileNameElement → Int →
    Option (List (Int × List Char × List Char))
  | [], [], _ => some []
  | a :: as, b :: bs, numbersCount =>
    if a.type ≠ b.type then none
    else if a.type = .FRAME_NUMBER then
      if a.data ≠ b.data then
        if padValid a.data b.data then
          (collectPotential as bs (numbersCount + 1)).map
            (fun l => (numbersCount, a.data, b.data) :: l)
        else collectPotential as bs (numbersCount + 1)
      else collectPotential as bs (numbersCount + 1)
    else
      if a.data ≠ b.data then none
      else collectPotential as bs numbersCount
  | _, _, _ => none

/-- `|stringToInt this − stringToInt other|` for one collected pair. -/
def pairDiff (p : Int × List Char × List Char) : Int :=
  |stringToInt p.2.1 - stringToInt p.2.2|

/-- The minimum-selection loop (lines 965-978): a running minimum starting
at `INT_MAX`, resetting the collected set on a strict decrease and
appending on a tie. -/
def selectMinLoop :
    List (Int × List Char × List Char) → Int → List (Int × List Char × List Char) →
    List (Int × List Char × List Char)
  | [], _, minEntries => minEntries
  | p :: ps, minimum, minEntries =>
    let diff := pairDiff p
    if diff < minimum then selectMinLoop ps diff [p]
    else if diff = minimum then selectMinLoop ps minimum (minEntries ++ [p])
    else selectMinLoop ps minimum minEntries

/-- `FileNameContent::matchesPattern this other`: `some indexes` iff the
source returns `true` having pushed exactly `indexes` into
`numberIndexesToVary` (which every caller passes in empty). -/
def FileNameContent.matchesPattern (this other : FileNameContent) :
    Option (List Int) :=
  if other.orderedElements.length ≠ this.orderedElements.length then none
  else
    match collectPotential this.orderedElements other.orderedElements 0 with
    | none => none
    | some potentialFrameNumbers =>
      if potentialFrameNumbers.isEmpty then none
      else some ((selectMinLoop potentialFrameNumbers INT_MAX []).map (fun p => p.1))

/-! ## Spec-side definitions used to state the claims -/

/-- Spec side: number of maximal digit runs in a string. -/
def digitRunCountGo : List Char → Bool → Nat
  | [], _ => 0
  | c :: rest, prevIsDigit =>
    if c.isDigit then (if prevIsDigit then 0 else 1) + digitRunCountGo rest true
    else digitRunCountGo rest false

/-- Spec side: the number of maximal contiguous decimal digit runs. -/
def digitRunCount (s : List Char) : Nat := digitRunCountGo s false

/-- Spec side (§3/§4.4): the canonical pattern of a string — every maximal
digit run replaced by `#` repeated to the run's length followed by its
0-based ordinal among digit runs, all other characters verbatim. -/
def specCanonical (s : List Char) (n : Nat) : List Char :=
  match s with
  | [] => []
  | c :: rest =>
    if c.isDigit then
      List.replicate ((c :: rest).takeWhile Char.isDigit).length '#' ++ natToChars n ++
        specCanonical ((c :: rest).dropWhile Char.isDigit) (n + 1)
    else c :: specCanonical rest n
termination_by s.length
decreasing_by
  · simp only [List.dropWhile, *]
    have h : ∀ (l : List Char), (List.dropWhile Char.isDigit l).length ≤ l.length := by
      intro l
      induction l with
      | nil => simp [List.dropWhile]
      | cons d ds ih =>
        simp only [List.dropWhile]
        split
        · exact Nat.le_trans ih (Nat.le_succ _)
        · simp
    have := h rest
    simp only [List.length_cons]
    omega
  · simp

/-- Concatenation of the element datas, in order. -/
def elementsConcat (es : List FileNameElement) : List Char :=
  es.foldr (fun e acc => e.data ++ acc) []

/-- Number of `FRAME_NUMBER` elements. -/
def frameElementCount (es : List FileNameElement) : Nat :=
  (es.filter (fun e => e.type = .FRAME_NUMBER)).length

/-- Spec side (§4.4): the candidate-slot ordinals whose pair minimizes
`|intValue(this) − intValue(other)|`, every tied ordinal included. -/
def specVaryOrdinals (pot : List (Int × List Char × List Char)) : List Int :=
  (pot.filter (fun p => decide (∀ q ∈ pot, pairDiff p ≤ pairDiff q))).map (fun p => p.1)

/-- The candidate list of a pair of contents, as collected by the element
walk (`[]` when the walk rejects). -/
def potentialOf (this other : FileNameContent) : List (Int × List Char × List Char) :=
  (collectPotential this.orderedElements other.orderedElements 0).getD []

/-- Spec side (§4.2): the short-view values the specification admits —
exactly `l`, `r`, or `view` followed by (at least one) decimal digits. -/
def shortViewSpecValue (sub : List Char) : Option Int :=
  if sub = "l".data then some 0
  else if sub = "r".data then some 1
  else if sub.take 4 = "view".data ∧ sub.drop 4 ≠ [] ∧ (sub.drop 4).all Char.isDigit then
    some (stringToInt (sub.drop 4))
  else none

/-! ## Sequence Aggregator: `SequenceFromFiles` (SequenceParsing.cpp
lines 1205-1347, 1365-1389)

`filesMap` models the `std::map<int, std::string>` as a key-sorted
association list; `std::map::insert` never overwrites an existing key.
The byte-size estimation fields are external I/O and not modelled (the
claims do not mention them). -/

/-- `std::map<int,std::string>::find`-style lookup. -/
def lookupMap : List (Int × List Char) → Int → Option (List Char)
  | [], _ => none
  | kv :: rest, k => if k = kv.1 then some kv.2 else lookupMap rest k

/-- `std::map<int,std::string>::insert`: sorted insertion that leaves the
map unchanged when the key is already present (the source ignores the
returned success flag). -/
def mapInsert : List (Int × List Char) → Int → List Char → List (Int × List Char)
  | [], k, v => [(k, v)]
  | kv :: rest, k, v =>
    if k < kv.1 then (k, v) :: kv :: rest
    else if k = kv.1 then kv :: rest
    else kv :: mapInsert rest k v

/-- `SequenceFromFilesPrivate`: the aggregator state. -/
structure SequenceFromFiles where
  sequence : List FileNameContent
  filesList : List (List Char)
  filesMap : List (Int × List Char)
  frameNumberStringIndexes : List Int
deriving DecidableEq

/-- A fresh `SequenceFromFiles`. -/
def emptySequence : SequenceFromFiles :=
  { sequence := [], filesList := [], filesMap := [], frameNumberStringIndexes := [] }

/-- Fallback first file for the (unreachable) empty-`sequence` read of
`_imp->sequence[0]`. -/
def defaultContent : FileNameContent := FileNameContent.ofAbsolute []

/-- The second-insertion loop of `tryInsertFile` (lines 1305-1317): for
each chosen slot index, read the *baseline's* digit string; the first
successful read inserts `(value, file's absolute name)` into the map; any
later slot whose value disagrees returns `false` immediately — with the
mutations made so far kept.  `Except.error st` models that early
`return false` at state `st`; `Except.ok st` means the loop completed. -/
def secondInsertLoop (base : FileNameContent) (fileAbs : List Char) :
    List Int → List Char → SequenceFromFiles →
    Except SequenceFromFiles SequenceFromFiles
  | [], _, st => Except.ok st
  | idx :: rest, firstFrameNumberStr, st =>
    let r := base.getNumberByIndex idx
    let frameNumberStr := r.getD []
    if r.isSome ∧ firstFrameNumberStr = [] then
      secondInsertLoop base fileAbs rest frameNumberStr
        { st with filesMap := mapInsert st.filesMap (stringToInt frameNumberStr) fileAbs }
    else if firstFrameNumberStr ≠ [] ∧ stringToInt frameNumberStr ≠ stringToInt firstFrameNumberStr then
      Except.error st
    else secondInsertLoop base fileAbs rest firstFrameNumberStr st

/-- The insert block of `tryInsertFile` (lines 1323-1344): for each chosen
slot index, read the *inserted file's* digit string; the first successful
read pushes the file onto `sequence` and `filesList` and inserts
`(value, file's absolute name)` into the map; any later slot whose value
disagrees returns `false` immediately, keeping the mutations made so
far. -/
def insertBlockLoop (file : FileNameContent) :
    List Int → List Char → SequenceFromFiles →
    Except SequenceFromFiles SequenceFromFiles
  | [], _, st => Except.ok st
  | idx :: rest, firstFrameNumberStr, st =>
    let r := file.getNumberByIndex idx
    let frameNumberStr := r.getD []
    if r.isSome ∧ firstFrameNumberStr = [] then
      insertBlockLoop file rest frameNumberStr
        { st with
            sequence := st.sequence ++ [file],
            filesList := st.filesList ++ [file.absoluteFileName],
            filesMap := mapInsert st.filesMap (stringToInt frameNumberStr) file.absoluteFileName }
    else if firstFrameNumberStr ≠ [] ∧ stringToInt frameNumberStr ≠ stringToInt firstFrameNumberStr then
      Except.error st
    else insertBlockLoop file rest firstFrameNumberStr st

/-- The state carried by a loop result, whether it completed or returned
early. -/
def exceptState : Except SequenceFromFiles SequenceFromFiles → SequenceFromFiles
  | Except.ok st => st
  | Except.error st => st

/-- `SequenceFromFiles::tryInsertFile` (lines 1275-1347): returns the
source's boolean result together with the (possibly mutated) state. -/
def tryInsertFile (st : SequenceFromFiles) (file : FileNameContent) :
    Bool × SequenceFromFiles :=
  if st.filesList.isEmpty then
    (true,
     { st with sequence := st.sequence ++ [file],
               filesList := st.filesList ++ [file.absoluteFileName] })
  else
    let base := st.sequence.headD defaultContent
    if file.filePath ≠ base.filePath then (false, st)
    else
      match file.matchesPattern base with
      | none => (false, st)
      | some frameNumberIndexes =>
        if st.filesList.contains file.absoluteFileName then (false, st)
        else if st.frameNumberStringIndexes = [] then
          let st1 := { st with frameNumberStringIndexes := frameNumberIndexes }
          match secondInsertLoop base file.absoluteFileName frameNumberIndexes [] st1 with
          | Except.error stE => (false, stE)
          | Except.ok st2 =>
            match insertBlockLoop file frameNumberIndexes [] st2 with
            | Except.error stE => (false, stE)
            | Except.ok st3 => (true, st3)
        else if frameNumberIndexes = st.frameNumberStringIndexes then
          match insertBlockLoop file frameNumberIndexes [] st with
          | Except.error stE => (false, stE)
          | Except.ok st3 => (true, st3)
        else (false, st)

/-- `SequenceFromFiles::getFirstFrame` (lines 1365-1371): `INT_MIN` when
the map is empty, else its smallest key. -/
def getFirstFrame (st : SequenceFromFiles) : Int :=
  match st.filesMap with
  | [] => INT_MIN
  | kv :: _ => kv.1

/-- `SequenceFromFiles::getLastFrame` (lines 1373-1381): `INT_MAX` when
the map is empty, else its largest key. -/
def getLastFrame (st : SequenceFromFiles) : Int :=
  match st.filesMap.getLast? with
  | none => INT_MAX
  | some kv => kv.1

/-- `SequenceFromFilesPrivate::isInSequence`. -/
def isInSequence (st : SequenceFromFiles) (index : Int) : Bool :=
  (lookupMap st.filesMap index).isSome

/-! ## Friendly summary: `generateUserFriendlySequencePattern`
(SequenceParsing.cpp lines 1409-1468), the frame-range part. -/

/-- The hole-skipping inner loop (lines 1420-1424): advance `first` over
absent frames, counting; the counter is capped at the 1000-frame hole
limit (`fuel` starts at 1000 = the remaining budget of `breakCounter`);
the `Bool` is `breakCounter >= NATRON_DIALOG_MAX_SEQUENCES_HOLE`, which
aborts the scan. -/
def holeScanGo (isIn : Int → Bool) : Nat → Int → Int × Bool
  | 0, first => (first, true)
  | fuel + 1, first =>
    if isIn first then (first, false) else holeScanGo isIn fuel (first + 1)

/-- The consecutive-run inner loop (lines 1431-1440): starting at
`next = first + 1` with `count = 1`, extend while the next frame is present
and consecutive; returns the final `next` and `count`.  `fuel` is one more
than the remaining frame span, which the guard `next ≤ last` never
exhausts. -/
def runScanGo (isIn : Int → Bool) (last : Int) : Nat → Int → Int → Nat → Int × Nat
  | 0, next, _, count => (next, count)
  | fuel + 1, next, prev, count =>
    if next ≤ last ∧ isIn next = true ∧ next = prev + 1 then
      runScanGo isIn last fuel (next + 1) next (count + 1)
    else (next, count)

/-- The chunk-building outer loop (lines 1416-1444). `fuel` bounds outer
iterations; each iteration strictly increases `first`, so the initial fuel
`(last + 1 - first).toNat + 1` is never exhausted. -/
def chunksGo (isIn : Int → Bool) (last : Int) : Nat → Int → List (Int × Int) → List (Int × Int)
  | 0, _, chunks => chunks
  | fuel + 1, first, chunks =>
    if first ≤ last then
      let fb := holeScanGo isIn 1000 first
      if fb.2 then chunks
      else
        let f1 := fb.1
        let nc := runScanGo isIn last ((last + 1 - (f1 + 1)).toNat + 1) (f1 + 1) f1 1
        chunksGo isIn last fuel (f1 + nc.2) (chunks ++ [(f1, nc.1 - 1)])
    else chunks

/-- The frame-range chunks of the summary. -/
def computeChunks (isIn : Int → Bool) (first last : Int) : List (Int × Int) :=
  chunksGo isIn last ((last + 1 - first).toNat + 1) first []

/-- One chunk's rendering (lines 1454-1462): a leading space, then
`start-end`, or just `start` for a singleton. -/
def chunkStr (c : Int × Int) : List Char :=
  if c.1 ≠ c.2 then [' '] ++ stringFromInt c.1 ++ ['-'] ++ stringFromInt c.2
  else [' '] ++ stringFromInt c.1

/-- The chunk list's body with the `" /"` separators (line 1463). -/
def renderChunksBody : List (Int × Int) → List Char
  | [] => []
  | [c] => chunkStr c
  | c :: rest => chunkStr c ++ " /".data ++ renderChunksBody rest

/-- The frame-range summary appended to the pattern (lines 1446-1466):
either `" start-end"` for a single chunk, or `" ( "` + body + `" ) "`. -/
def renderChunksSummary (chunks : List (Int × Int)) : List Char :=
  if chunks.length = 1 then
    [' '] ++ stringFromInt (chunks.headD (0, 0)).1 ++ ['-'] ++
      stringFromInt (chunks.headD (0, 0)).2
  else " ( ".data ++ renderChunksBody chunks ++ " ) ".data

/-- The range-summary part of `generateUserFriendlySequencePattern` for a
multi-member sequence (everything the function appends after the
path-free pattern). -/
def friendlySummarySuffix (st : SequenceFromFiles) : List Char :=
  renderChunksSummary (computeChunks (isInSequence st) (getFirstFrame st) (getLastFrame st))

/-- Spec side: whether the frame-map keys are strictly increasing —
`mapInsert` keeps this invariant and every reachable `filesMap` enjoys
it. -/
def allKeysGT (k : Int) (m : List (Int × List Char)) : Bool :=
  m.all (fun kv => decide (k < kv.1))

/-- Spec side: key-sortedness of a frame map. -/
def sortedKeys : List (Int × List Char) → Bool
  | [] => true
  | kv :: rest => allKeysGT kv.1 rest && sortedKeys rest

/-! ## Concrete fixtures used by witnesses and counterexamples -/

/-- `f10.png`: baseline of the frame-collision scenario. -/
def fileF10 : FileNameContent := FileNameContent.ofAbsolute "f10.png".data

/-- `f9.png`: second member, frame 9. -/
def fileF9 : FileNameContent := FileNameContent.ofAbsolute "f9.png".data

/-- `f09.png`: textually new file whose single digit run also has value 9. -/
def fileF09 : FileNameContent := FileNameContent.ofAbsolute "f09.png".data

/-- The locked sequence holding `f10.png` and `f9.png`
(frame map `{9 ↦ f9.png, 10 ↦ f9.png}`, locked slot set `[0]`). -/
def lockedF : SequenceFromFiles :=
  (tryInsertFile (tryInsertFile emptySequence fileF10).2 fileF9).2

/-- `a1b3.png`: baseline whose two digit runs have different values. -/
def fileA1B3 : FileNameContent := FileNameContent.ofAbsolute "a1b3.png".data

/-- `a2b4.png`: candidate whose two digit runs tie in distance to the
baseline's, so both slots are chosen. -/
def fileA2B4 : FileNameContent := FileNameContent.ofAbsolute "a2b4.png".data

/-- The sequence seeded with `a1b3.png` only. -/
def seededG : SequenceFromFiles := (tryInsertFile emptySequence fileA1B3).2

/-- `a1_b2.png` (spec §8 example). -/
def fileA1B2p : FileNameContent := FileNameContent.ofAbsolute "a1_b2.png".data

/-- `a1_b3.png` (spec §8 example). -/
def fileA1B3p : FileNameContent := FileNameContent.ofAbsolute "a1_b3.png".data

/-- A six-member sequence whose present frame numbers are exactly
1, 2, 3, 7, 8, 9. -/
def seq136789 : SequenceFromFiles :=
  List.foldl (fun st f => (tryInsertFile st (FileNameContent.ofAbsolute f)).2)
    emptySequence
    ["f1.png".data, "f2.png".data, "f3.png".data, "f7.png".data, "f8.png".data, "f9.png".data]

/-! # Theorems settling the claims -/

/-- Claim C1: the claim says the literal-containment step requires each
literal token to occur strictly after the previous literal's match and
rejects out-of-order literals.  The code contradicts this (and its own
in-code comment "the common parts order is not the same"): `lastPartPos`
is never reassigned inside the loop, so every literal is searched from
position 0 and order is not checked.  Failing input: pattern `b#a`
(literal tokens `b`, `a`) against filename `ab` — each literal occurs, but
only out of order; the code's literal step accepts while the documented
behaviour rejects. -/
theorem claimC1_code_eval :
    extractCommonPartsAndVariablesFromPattern "b#a".data [] =
      some ([ "b".data, "a".data ], [("#".data, 1)])
    ∧ matchesPatternLiteralStep "ab".data ["b".data, "a".data] = true
    ∧ specOrderedLiteralContainment "ab".data ["b".data, "a".data] = false := by
  exact ⟨by decide, by decide, by decide⟩

/-- Claim C4: the claim (and the accessor's own doc comment, "Returns true
if a single number was found in the filename") says `hasSingleNumber()` is
true iff exactly one digit run exists.  The parser instead *toggles* the
flag on every digit run, making it "the digit-run count is odd".  Failing
input: `a1b2c3e`, which has three digit runs yet reports `true`. -/
theorem claimC4_code_eval :
    (FileNameContent.ofAbsolute "a1b2c3e".data).hasSingleNumber = true
    ∧ digitRunCount "a1b2c3e".data = 3 := by
  exact ⟨by decide, by decide⟩

/-- Claim C2 counterexample: `lockedF` is Locked (two accepted members,
slot set `[0]`) and its map holds `9 ↦ f9.png`; inserting `f09.png`, whose
value at the locked slot is also 9, is *not* rejected — the call returns
`true` and appends the file to the member and files lists (while the map
is indeed left unchanged). -/
theorem claimC2_counterexample :
    lockedF.sequence.length = 2
    ∧ lockedF.frameNumberStringIndexes = [0]
    ∧ lookupMap lockedF.filesMap 9 = some "f9.png".data
    ∧ fileF09.getNumberByIndex 0 = some "09".data
    ∧ stringToInt "09".data = 9
    ∧ (tryInsertFile lockedF fileF09).1 = true
    ∧ (tryInsertFile lockedF fileF09).2.filesList = lockedF.filesList ++ ["f09.png".data]
    ∧ (tryInsertFile lockedF fileF09).2.sequence = lockedF.sequence ++ [fileF09]
    ∧ (tryInsertFile lockedF fileF09).2.filesMap = lockedF.filesMap := by
  exact ⟨by decide, by decide, by decide, by decide, by decide, by decide, by decide,
    by decide, by decide⟩

/-- Claim C3 counterexample: inserting `a2b4.png` as second member of the
sequence seeded with `a1b3.png` makes both slots tie, and the baseline's
slot values 1 and 3 disagree; `tryInsertFile` returns `false`, but only
after setting `frameNumberStringIndexes` and inserting a map entry — the
rejected call does change state. -/
theorem claimC3_counterexample :
    (tryInsertFile seededG fileA2B4).1 = false
    ∧ seededG.frameNumberStringIndexes = []
    ∧ (tryInsertFile seededG fileA2B4).2.frameNumberStringIndexes = [0, 1]
    ∧ seededG.filesMap = []
    ∧ (tryInsertFile seededG fileA2B4).2.filesMap = [(1, "a2b4.png".data)] := by
  exact ⟨by decide, by decide, by decide, by decide, by decide⟩

/-- Claim C6 counterexample: for `file.mp4` the parser does not strip the
extension — the digit `4` inside the extension `mp4` produces a
`FRAME_NUMBER` element, and the canonical pattern is `file.mp#0` (built
over the whole filename), not the claimed stem-based pattern `file`. -/
theorem claimC6_counterexample :
    (FileNameContent.ofAbsolute "file.mp4".data).extension = "mp4".data
    ∧ frameElementCount (FileNameContent.ofAbsolute "file.mp4".data).orderedElements = 1
    ∧ (FileNameContent.ofAbsolute "file.mp4".data).generatedPattern = "file.mp#0".data := by
  exact ⟨by decide, by decide, by decide⟩

/-- Claim C7 counterexample: `viewx` is neither `l`, `r`, nor `view`
followed by digits, yet validating it against `%v` with the short-view
kind succeeds (with value 0, the failed parse of `x`). -/
theorem claimC7_counterexample :
    checkVariable "%v".data "viewx".data 1 = some 0
    ∧ shortViewSpecValue "viewx".data = none := by
  exact ⟨by decide, by decide⟩

/-- Claim C8 counterexample: validating a loose `%d` token with the
short-view kind (1) or the long-view kind (2) *succeeds* — the `%d` branch
performs no semantic-kind check — contradicting the claim that it fails. -/
theorem claimC8_counterexample :
    checkVariable "%d".data "l".data 1 = some 0
    ∧ checkVariable "%d".data "left".data 2 = some 0 := by
  exact ⟨by decide, by decide⟩

/-- Claim C9 counterexample: for the sequence with frames exactly
1, 2, 3, 7, 8, 9 the rendered range summary is not the claimed
`" ( 1-3 / 7-9 ) "` — the code emits `" ( "` and then a per-chunk leading
space, producing two spaces after the opening parenthesis. -/
theorem claimC9_counterexample :
    seq136789.filesMap.map (fun kv => kv.1) = [1, 2, 3, 7, 8, 9]
    ∧ friendlySummarySuffix seq136789 ≠ " ( 1-3 / 7-9 ) ".data := by
  exact ⟨by decide, by decide⟩

/-- Claim C9 (amended): for a multi-member sequence whose present frame
numbers are exactly 1, 2, 3, 7, 8, 9, the range-summary part is the exact
string `" (  1-3 / 7-9 ) "` (with *two* spaces after the opening
parenthesis: each range carries its own leading space after the `" ( "`
prefix; singleton ranges are rendered as just the number). -/
theorem claimC9_amended :
    seq136789.filesMap.map (fun kv => kv.1) = [1, 2, 3, 7, 8, 9]
    ∧ friendlySummarySuffix seq136789 = " (  1-3 / 7-9 ) ".data := by
  exact ⟨by decide, by decide⟩

/-- Claim C10: whenever the frame-number map is empty — which covers both
the empty sequence and a sequence holding exactly one accepted member,
since the first insertion leaves the map untouched — `getFirstFrame`
returns `INT_MIN` and `getLastFrame` returns `INT_MAX`, so the reported
first frame is strictly below the reported last frame. -/
theorem claimC10 (st : SequenceFromFiles) (file : FileNameContent)
    (h : st.filesMap = []) :
    getFirstFrame st = INT_MIN ∧ getLastFrame st = INT_MAX
    ∧ getFirstFrame st < getLastFrame st
    ∧ (tryInsertFile emptySequence file).1 = true
    ∧ ((tryInsertFile emptySequence file).2).filesMap = []
    ∧ ((tryInsertFile emptySequence file).2).sequence = [file] := by
  have h1 : getFirstFrame st = INT_MIN := by
    unfold getFirstFrame
    rw [h]
  have h2 : getLastFrame st = INT_MAX := by
    unfold getLastFrame
    rw [h]
    rfl
  refine ⟨h1, h2, ?_, ?_, ?_, ?_⟩
  · rw [h1, h2]; decide
  · simp [tryInsertFile, emptySequence]
  · simp [tryInsertFile, emptySequence]
  · simp [tryInsertFile, emptySequence]

/-- Witness for C10 at the empty sequence and the file `f10.png`. -/
theorem claimC10_witness :
    getFirstFrame emptySequence = INT_MIN ∧ getLastFrame emptySequence = INT_MAX
    ∧ getFirstFrame emptySequence < getLastFrame emptySequence
    ∧ (tryInsertFile emptySequence fileF10).1 = true
    ∧ ((tryInsertFile emptySequence fileF10).2).filesMap = []
    ∧ ((tryInsertFile emptySequence fileF10).2).sequence = [fileF10] :=
  claimC10 emptySequence fileF10 rfl

/-- Claim C3 (amended): rejection at the *duplicate-path* check leaves the
state exactly unchanged; but the claim's further cases do not hold — a
rejection because the chosen frame slots yield different integer values
within a single file (exhibited by `claimC3_counterexample` at the second
insertion) happens only after `frameNumberStringIndexes` and part of the
frame map have been updated, so that rejection does change state. -/
theorem claimC3_amended (st : SequenceFromFiles) (file : FileNameContent)
    (idxs : List Int)
    (hne : st.filesList.isEmpty = false)
    (hpath : file.filePath = (st.sequence.headD defaultContent).filePath)
    (hmatch : file.matchesPattern (st.sequence.headD defaultContent) = some idxs)
    (hdup : file.absoluteFileName ∈ st.filesList) :
    tryInsertFile st file = (false, st) := by
  unfold tryInsertFile
  rw [hne]
  simp only [Bool.false_eq_true, if_false]
  rw [if_neg (by simp [hpath]), hmatch]
  simp [hdup]

/-- Witness for the amended C3: re-presenting the already-accepted
`f9.png` to the locked sequence is rejected with no state change. -/
theorem claimC3_witness : tryInsertFile lockedF fileF9 = (false, lockedF) :=
  claimC3_amended lockedF fileF9 [0] (by decide) (by decide) (by decide) (by decide)

/-- Claim C8 (amended): `%v` tokens fail for any semantic kind other than
short-view (1), `%V` tokens for any kind other than long-view (2), hash
tokens and `%0Nd` tokens for any kind other than frame-number (0) — but a
loose `%d` token performs *no* semantic-kind check: it succeeds with the
parsed value for every kind, including ShortView and LongView. -/
theorem claimC8_amended (tok sub : List Char) (t : Int) :
    (tok = "%v".data → t ≠ 1 → checkVariable tok sub t = none)
    ∧ (tok = "%V".data → t ≠ 2 → checkVariable tok sub t = none)
    ∧ (tok.contains '#' = true → t ≠ 0 → checkVariable tok sub t = none)
    ∧ (tok.contains '#' = false → startsWith tok "%0".data = true →
        endsWith tok "d".data = true → t ≠ 0 → checkVariable tok sub t = none)
    ∧ checkVariable "%d".data sub t = some (stringToInt sub) := by
  refine ⟨?_, ?_, ?_, ?_, ?_⟩
  · rintro rfl ht
    unfold checkVariable
    rw [if_pos rfl, if_pos ht]
  · rintro rfl ht
    unfold checkVariable
    rw [if_neg (by decide), if_pos rfl, if_pos ht]
  · intro hc ht
    have h1 : tok ≠ "%v".data := by rintro rfl; exact absurd hc (by decide)
    have h2 : tok ≠ "%V".data := by rintro rfl; exact absurd hc (by decide)
    unfold checkVariable
    rw [if_neg h1, if_neg h2, if_pos hc, if_pos ht]
  · intro hc hs he ht
    have h1 : tok ≠ "%v".data := by
      rintro rfl; exact absurd hs (by decide)
    have h2 : tok ≠ "%V".data := by
      rintro rfl; exact absurd hs (by decide)
    unfold checkVariable
    rw [if_neg h1, if_neg h2, if_neg (by rw [hc]; exact Bool.false_ne_true),
      if_pos ⟨hs, he⟩, if_pos ht]
  · unfold checkVariable
    rw [if_neg (by decide), if_neg (by decide), if_neg (by decide),
      if_neg (by decide), if_pos rfl]

/-- Witness for the amended C8: `%v` with the frame-number kind fails,
while `%d` with the short-view kind succeeds. -/
theorem claimC8_witness :
    checkVariable "%v".data "l".data 0 = none
    ∧ checkVariable "%d".data "l".data 1 = some (stringToInt "l".data) :=
  ⟨(claimC8_amended "%v".data "l".data 0).1 rfl (by decide),
   (claimC8_amended "%d".data "l".data 1).2.2.2.2⟩

/-- Claim C7 (amended): validating a substring against a `%v` token with
the short-view kind succeeds exactly on `l` (value 0), `r` (value 1), and
any substring that case-insensitively starts with `view` — not only
`view<digits>` — with extracted value the stream parse of the substring
after removing every case-insensitive occurrence of `view` (so e.g.
`viewx` succeeds with value 0); every other substring fails. -/
theorem claimC7_amended (sub : List Char) (n : Int) :
    checkVariable "%v".data sub 1 = some n ↔
      (sub = "l".data ∧ n = 0) ∨ (sub = "r".data ∧ n = 1) ∨
      (sub ≠ "l".data ∧ sub ≠ "r".data ∧ startsWith sub "view".data = true ∧
        n = stringToInt (removeAllOccurences sub "view".data false)) := by
  unfold checkVariable
  rw [if_pos rfl, if_neg (by decide : ¬(1 : Int) ≠ 1)]
  by_cases hr : sub = "r".data
  · subst hr
    rw [if_pos rfl]
    constructor
    · intro h
      exact Or.inr (Or.inl ⟨rfl, (Option.some_inj.mp h).symm⟩)
    · rintro (⟨h, _⟩ | ⟨_, hn⟩ | ⟨_, h, _⟩)
      · exact absurd h (by decide)
      · rw [hn]
      · exact absurd rfl h
  · rw [if_neg hr]
    by_cases hl : sub = "l".data
    · subst hl
      rw [if_pos rfl]
      constructor
      · intro h
        exact Or.inl ⟨rfl, (Option.some_inj.mp h).symm⟩
      · rintro (⟨_, hn⟩ | ⟨h, _⟩ | ⟨h, _, _⟩)
        · rw [hn]
        · exact absurd h (by decide)
        · exact absurd rfl h
    · rw [if_neg hl]
      by_cases hv : startsWith sub "view".data = true
      · rw [if_pos hv]
        constructor
        · intro h
          exact Or.inr (Or.inr ⟨hl, hr, hv, (Option.some_inj.mp h).symm⟩)
        · rintro (⟨h, _⟩ | ⟨h, _⟩ | ⟨_, _, _, hn⟩)
          · exact absurd h hl
          · exact absurd h hr
          · rw [hn]
      · rw [if_neg hv]
        constructor
        · intro h
          exact absurd h (by simp)
        · rintro (⟨h, _⟩ | ⟨h, _⟩ | ⟨_, _, h, _⟩)
          · exact absurd h hl
          · exact absurd h hr
          · exact absurd h hv

/-! ### Frame-map preservation lemmas (for the amended claim C2) -/

theorem lookupMap_none_of_allKeysGT {m : List (Int × List Char)} {k : Int}
    (h : allKeysGT k m = true) : lookupMap m k = none := by
  induction m with
  | nil => rfl
  | cons kv rest ih =>
    simp only [allKeysGT, List.all_cons, Bool.and_eq_true, decide_eq_true_eq] at h
    simp only [lookupMap]
    rw [if_neg (by omega)]
    exact ih h.2

theorem allKeysGT_mono {m : List (Int × List Char)} {a k : Int}
    (hk : k ≤ a) (h : allKeysGT a m = true) : allKeysGT k m = true := by
  simp only [allKeysGT, List.all_eq_true, decide_eq_true_eq] at h ⊢
  intro kv hkv
  exact lt_of_le_of_lt hk (h kv hkv)

theorem allKeysGT_mapInsert {m : List (Int × List Char)} {x k : Int} {v : List Char}
    (h : allKeysGT x m = true) (hxk : x < k) :
    allKeysGT x (mapInsert m k v) = true := by
  induction m with
  | nil => simp [mapInsert, allKeysGT, hxk]
  | cons kv rest ih =>
    simp only [allKeysGT, List.all_cons, Bool.and_eq_true, decide_eq_true_eq] at h
    simp only [mapInsert]
    split
    · simp only [allKeysGT, List.all_cons, Bool.and_eq_true, decide_eq_true_eq]
      refine ⟨by omega, by omega, ?_⟩
      simpa [allKeysGT, List.all_eq_true] using h.2
    · split
      · simp [allKeysGT, List.all_cons, h.1, h.2]
      · simp only [allKeysGT, List.all_cons, Bool.and_eq_true, decide_eq_true_eq]
        exact ⟨h.1, by simpa [allKeysGT] using ih h.2⟩

theorem sortedKeys_mapInsert {m : List (Int × List Char)} {k : Int} {v : List Char}
    (h : sortedKeys m = true) : sortedKeys (mapInsert m k v) = true := by
  induction m with
  | nil => simp [mapInsert, sortedKeys, allKeysGT]
  | cons kv rest ih =>
    simp only [sortedKeys, Bool.and_eq_true] at h
    simp only [mapInsert]
    split
    · simp only [sortedKeys, Bool.and_eq_true]
      refine ⟨?_, h.1, h.2⟩
      simp only [allKeysGT, List.all_cons, Bool.and_eq_true, decide_eq_true_eq]
      exact ⟨by omega, by simpa [allKeysGT] using allKeysGT_mono (by omega) h.1⟩
    · split
      · simp [sortedKeys, h.1, h.2]
      · simp only [sortedKeys, Bool.and_eq_true]
        exact ⟨allKeysGT_mapInsert h.1 (by omega), ih h.2⟩

theorem lookupMap_mapInsert_preserve {m : List (Int × List Char)} {k k' : Int}
    {v w : List Char} (hs : sortedKeys m = true)
    (h : lookupMap m k' = some w) : lookupMap (mapInsert m k v) k' = some w := by
  induction m with
  | nil => simp [lookupMap] at h
  | cons kv rest ih =>
    simp only [sortedKeys, Bool.and_eq_true] at hs
    simp only [lookupMap] at h
    simp only [mapInsert]
    split
    · by_cases hk' : k' = kv.1
      · simp only [lookupMap]
        rw [if_neg (by omega), if_pos hk']
        rw [if_pos hk'] at h
        exact h
      · rw [if_neg hk'] at h
        simp only [lookupMap]
        have hk'2 : k' ≠ k := by
          rintro rfl
          rw [lookupMap_none_of_allKeysGT (allKeysGT_mono (by omega) hs.1)] at h
          exact Option.noConfusion h
        rw [if_neg hk'2, if_neg hk']
        exact h
    · split
      · simpa [lookupMap] using h
      · by_cases hk' : k' = kv.1
        · simp only [lookupMap]
          rw [if_pos hk']
          rw [if_pos hk'] at h
          exact h
        · rw [if_neg hk'] at h
          simp only [lookupMap]
          rw [if_neg hk']
          exact ih hs.2 h

theorem secondInsertLoop_preserve (base : FileNameContent) (abs : List Char)
    (idxs : List Int) (firstStr : List Char) (st : SequenceFromFiles)
    (k : Int) (w : List Char)
    (hs : sortedKeys st.filesMap = true) (h : lookupMap st.filesMap k = some w) :
    sortedKeys (exceptState (secondInsertLoop base abs idxs firstStr st)).filesMap = true
    ∧ lookupMap (exceptState (secondInsertLoop base abs idxs firstStr st)).filesMap k = some w := by
  induction idxs generalizing firstStr st with
  | nil => exact ⟨hs, h⟩
  | cons idx rest ih =>
    simp only [secondInsertLoop]
    split
    · exact ih _ _ (sortedKeys_mapInsert hs) (lookupMap_mapInsert_preserve hs h)
    · split
      · exact ⟨hs, h⟩
      · exact ih _ _ hs h

theorem insertBlockLoop_preserve (file : FileNameContent)
    (idxs : List Int) (firstStr : List Char) (st : SequenceFromFiles)
    (k : Int) (w : List Char)
    (hs : sortedKeys st.filesMap = true) (h : lookupMap st.filesMap k = some w) :
    sortedKeys (exceptState (insertBlockLoop file idxs firstStr st)).filesMap = true
    ∧ lookupMap (exceptState (insertBlockLoop file idxs firstStr st)).filesMap k = some w := by
  induction idxs generalizing firstStr st with
  | nil => exact ⟨hs, h⟩
  | cons idx rest ih =>
    simp only [insertBlockLoop]
    split
    · exact ih _ _ (sortedKeys_mapInsert hs) (lookupMap_mapInsert_preserve hs h)
    · split
      · exact ⟨hs, h⟩
      · exact ih _ _ hs h

/-- Claim C2 (amended): a frame-number collision never *overwrites* — any
existing frame-to-path binding of a key-sorted map survives every
`tryInsertFile` call, so the colliding file's frame number is never added
to the map; however the colliding insertion is *not rejected*: as
exhibited on `lockedF` + `f09.png`, the call returns `true` and appends
the file to the member and files lists while leaving the map unchanged. -/
theorem claimC2_amended :
    (∀ (st : SequenceFromFiles) (file : FileNameContent) (k : Int) (w : List Char),
      sortedKeys st.filesMap = true → lookupMap st.filesMap k = some w →
      lookupMap ((tryInsertFile st file).2).filesMap k = some w)
    ∧ (tryInsertFile lockedF fileF09).1 = true
    ∧ (tryInsertFile lockedF fileF09).2.filesList = lockedF.filesList ++ ["f09.png".data]
    ∧ (tryInsertFile lockedF fileF09).2.filesMap = lockedF.filesMap := by
  refine ⟨?_, by decide, by decide, by decide⟩
  intro st file k w hs h
  unfold tryInsertFile
  repeat' split
  all_goals try exact h
  all_goals simp only []
  all_goals repeat' split
  all_goals try exact h
  · rename_i x1 idxs hm x2 stE heqA
    have hA := secondInsertLoop_preserve (st.sequence.headD defaultContent)
      file.absoluteFileName idxs [] { st with frameNumberStringIndexes := idxs } k w hs h
    rw [heqA] at hA
    exact hA.2
  · rename_i x1 idxs hm x2 st2 heqA x3 stE heqB
    have hA := secondInsertLoop_preserve (st.sequence.headD defaultContent)
      file.absoluteFileName idxs [] { st with frameNumberStringIndexes := idxs } k w hs h
    rw [heqA] at hA
    have hB := insertBlockLoop_preserve file idxs [] st2 k w hA.1 hA.2
    rw [heqB] at hB
    exact hB.2
  · rename_i x1 idxs hm x2 st2 heqA x3 st3 heqB
    have hA := secondInsertLoop_preserve (st.sequence.headD defaultContent)
      file.absoluteFileName idxs [] { st with frameNumberStringIndexes := idxs } k w hs h
    rw [heqA] at hA
    have hB := insertBlockLoop_preserve file idxs [] st2 k w hA.1 hA.2
    rw [heqB] at hB
    exact hB.2
  · rename_i x1 idxs hm hfeq x2 stE heqB
    have hB := insertBlockLoop_preserve file idxs [] st k w hs h
    rw [heqB] at hB
    exact hB.2
  · rename_i x1 idxs hm hfeq x2 st3 heqB
    have hB := insertBlockLoop_preserve file idxs [] st k w hs h
    rw [heqB] at hB
    exact hB.2

/-- Witness for the amended C2: the binding `9 ↦ f9.png` survives the
colliding insertion of `f09.png`. -/
theorem claimC2_witness :
    lookupMap ((tryInsertFile lockedF fileF09).2).filesMap 9 = some "f9.png".data :=
  claimC2_amended.1 lockedF fileF09 9 "f9.png".data (by decide) (by decide)

/-! ### C5 machinery -/

theorem foldlMin_le_init (ds : List Int) (m : Int) : ds.foldl min m ≤ m := by
  induction ds generalizing m with
  | nil => simp
  | cons d ds ih =>
    simp only [List.foldl_cons]
    exact le_trans (ih (min m d)) (min_le_left m d)

theorem foldlMin_le_mem {ds : List Int} {d : Int} (hd : d ∈ ds) (m : Int) :
    ds.foldl min m ≤ d := by
  induction ds generalizing m with
  | nil => cases hd
  | cons a ds ih =>
    simp only [List.foldl_cons]
    rcases List.mem_cons.mp hd with rfl | hmem
    · exact le_trans (foldlMin_le_init ds (min m d)) (min_le_right m d)
    · exact ih hmem (min m a)

theorem le_foldlMin {ds : List Int} {x m : Int} (hm : x ≤ m) (h : ∀ d ∈ ds, x ≤ d) :
    x ≤ ds.foldl min m := by
  induction ds generalizing m with
  | nil => exact hm
  | cons a ds ih =>
    simp only [List.foldl_cons]
    exact ih (le_min hm (h a (List.mem_cons_self a ds)))
      (fun d hd => h d (List.mem_cons_of_mem a hd))

theorem selectMinLoop_eq (ps : List (Int × List Char × List Char)) (m : Int)
    (cur : List (Int × List Char × List Char))
    (hcur : ∀ c ∈ cur, pairDiff c = m) :
    selectMinLoop ps m cur =
      (cur ++ ps).filter (fun p => decide (pairDiff p = (ps.map pairDiff).foldl min m)) := by
  induction ps generalizing m cur with
  | nil =>
    simp only [List.map_nil, List.foldl_nil, List.append_nil, selectMinLoop]
    symm
    apply List.filter_eq_self.mpr
    intro c hc
    simp [hcur c hc]
  | cons p ps ih =>
    simp only [selectMinLoop, List.map_cons, List.foldl_cons]
    by_cases hlt : pairDiff p < m
    · rw [if_pos hlt]
      have hmin : m ⊓ pairDiff p = pairDiff p := min_eq_right (le_of_lt hlt)
      simp only [hmin]
      rw [ih (pairDiff p) [p] (by intro c hc; simp only [List.mem_singleton] at hc; rw [hc])]
      have hM := foldlMin_le_init (ps.map pairDiff) (pairDiff p)
      have hcurnil : List.filter
          (fun q => decide (pairDiff q = (ps.map pairDiff).foldl min (pairDiff p))) cur = [] := by
        apply List.filter_eq_nil_iff.mpr
        intro c hc
        show ¬ decide (pairDiff c = (ps.map pairDiff).foldl min (pairDiff p)) = true
        simp only [decide_eq_true_eq]
        rw [hcur c hc]
        omega
      simp only [List.singleton_append, List.filter_append, hcurnil, List.nil_append]
    · rw [if_neg hlt]
      by_cases heq : pairDiff p = m
      · rw [if_pos heq]
        simp only [heq, min_self]
        rw [ih m (cur ++ [p]) ?hc]
        case hc =>
          intro c hc
          rcases List.mem_append.mp hc with hcl | hcr
          · exact hcur c hcl
          · simp only [List.mem_singleton] at hcr
            rw [hcr, heq]
        simp only [List.append_assoc, List.singleton_append]
      · rw [if_neg heq]
        have hmin : m ⊓ pairDiff p = m := min_eq_left (by omega)
        simp only [hmin]
        rw [ih m cur hcur]
        have hM := foldlMin_le_init (ps.map pairDiff) m
        have hne : decide (pairDiff p = (ps.map pairDiff).foldl min m) = false := by
          simp only [decide_eq_false_iff_not]
          omega
        simp only [List.filter_append, List.filter_cons, hne, Bool.false_eq_true, if_false]


theorem isSpaceChar_eq_false_of_isDigit {c : Char} (h : c.isDigit = true) :
    isSpaceChar c = false := by
  cases hsp : isSpaceChar c
  · rfl
  · exfalso
    simp only [isSpaceChar, Bool.or_eq_true, beq_iff_eq] at hsp
    rcases hsp with ((((rfl | rfl) | rfl) | rfl) | rfl) | rfl <;> exact absurd h (by decide)

theorem stringToInt_digits_bounds {s : List Char} (hne : s ≠ [])
    (hd : s.all Char.isDigit = true) :
    0 ≤ stringToInt s ∧ stringToInt s ≤ INT_MAX := by
  cases s with
  | nil => exact absurd rfl hne
  | cons c rest =>
    simp only [List.all_cons, Bool.and_eq_true] at hd
    have hsp := isSpaceChar_eq_false_of_isDigit hd.1
    have hminus : (c == '-') = false := by
      simp only [beq_eq_false_iff_ne, ne_eq]
      rintro rfl
      exact absurd hd.1 (by decide)
    have hplus : (c == '+') = false := by
      simp only [beq_eq_false_iff_ne, ne_eq]
      rintro rfl
      exact absurd hd.1 (by decide)
    unfold stringToInt
    rw [List.dropWhile_cons, if_neg (by rw [hsp]; exact Bool.false_ne_true)]
    simp only [stringToIntCore, hminus, Bool.false_eq_true, if_false, hplus]
    exact ⟨le_min (Int.ofNat_nonneg _) (by decide), min_le_right _ _⟩

theorem parseLoop_frame_digits (input : List Char) : ∀ (num text : List Char),
    num.all Char.isDigit = true →
    ∀ e ∈ parseLoop input num text, e.type = FileNameEltType.FRAME_NUMBER →
      e.data ≠ [] ∧ e.data.all Char.isDigit = true := by
  induction input with
  | nil =>
    intro num text hnum e he ht
    simp only [parseLoop] at he
    rcases List.mem_append.mp he with h1 | h2
    · split at h1
      · rename_i hne0
        simp only [List.mem_singleton] at h1
        subst h1
        exact ⟨hne0, hnum⟩
      · cases h1
    · split at h2
      · simp only [List.mem_singleton] at h2
        subst h2
        exact FileNameEltType.noConfusion ht
      · cases h2
  | cons c rest ih =>
    intro num text hnum e he ht
    simp only [parseLoop] at he
    split at he
    · rename_i hdig
      rcases List.mem_append.mp he with h1 | h2
      · split at h1
        · simp only [List.mem_singleton] at h1
          subst h1
          exact FileNameEltType.noConfusion ht
        · cases h1
      · exact ih (num ++ [c]) [] (by simp [List.all_append, hnum, hdig]) e h2 ht
    · rcases List.mem_append.mp he with h1 | h2
      · split at h1
        · rename_i hne0
          simp only [List.mem_singleton] at h1
          subst h1
          exact ⟨hne0, hnum⟩
        · cases h1
      · exact ih [] (text ++ [c]) rfl e h2 ht

theorem collectPotential_digits : ∀ (as bs : List FileNameElement) (n : Int)
    (pot : List (Int × List Char × List Char)),
    (∀ e ∈ as, e.type = FileNameEltType.FRAME_NUMBER →
      e.data ≠ [] ∧ e.data.all Char.isDigit = true) →
    (∀ e ∈ bs, e.type = FileNameEltType.FRAME_NUMBER →
      e.data ≠ [] ∧ e.data.all Char.isDigit = true) →
    collectPotential as bs n = some pot →
    ∀ p ∈ pot, (p.2.1 ≠ [] ∧ p.2.1.all Char.isDigit = true)
      ∧ (p.2.2 ≠ [] ∧ p.2.2.all Char.isDigit = true) := by
  intro as
  induction as with
  | nil =>
    intro bs n pot hA hB h p hp
    cases bs with
    | nil =>
      simp only [collectPotential, Option.some_inj] at h
      subst h
      cases hp
    | cons b bs => exact Option.noConfusion h
  | cons a as ih =>
    intro bs n pot hA hB h p hp
    cases bs with
    | nil => exact Option.noConfusion h
    | cons b bs =>
      have hAtail : ∀ e ∈ as, e.type = FileNameEltType.FRAME_NUMBER →
          e.data ≠ [] ∧ e.data.all Char.isDigit = true :=
        fun e he => hA e (List.mem_cons_of_mem a he)
      have hBtail : ∀ e ∈ bs, e.type = FileNameEltType.FRAME_NUMBER →
          e.data ≠ [] ∧ e.data.all Char.isDigit = true :=
        fun e he => hB e (List.mem_cons_of_mem b he)
      simp only [collectPotential] at h
      split at h
      · exact absurd h (by simp)
      · rename_i htype
        split at h
        · rename_i hframe
          split at h
          · split at h
            · rcases Option.map_eq_some'.mp h with ⟨pot2, hpot2, hcons⟩
              subst hcons
              rcases List.mem_cons.mp hp with rfl | hmem
              · refine ⟨hA a (List.mem_cons_self a as) hframe, ?_⟩
                have hbtype : b.type = FileNameEltType.FRAME_NUMBER := by
                  simp only [ne_eq, not_not] at htype
                  rw [← htype, hframe]
                exact hB b (List.mem_cons_self b bs) hbtype
              · exact ih bs (n + 1) pot2 hAtail hBtail hpot2 p hmem
            · exact ih bs (n + 1) pot hAtail hBtail h p hp
          · exact ih bs (n + 1) pot hAtail hBtail h p hp
        · split at h
          · exact absurd h (by simp)
          · exact ih bs n pot hAtail hBtail h p hp

theorem pairDiff_le_INT_MAX {p : Int × List Char × List Char}
    (h1 : p.2.1 ≠ [] ∧ p.2.1.all Char.isDigit = true)
    (h2 : p.2.2 ≠ [] ∧ p.2.2.all Char.isDigit = true) :
    pairDiff p ≤ INT_MAX := by
  have b1 := stringToInt_digits_bounds h1.1 h1.2
  have b2 := stringToInt_digits_bounds h2.1 h2.2
  unfold pairDiff
  rw [abs_le]
  unfold INT_MAX at *
  constructor <;> omega

/-- Claim C5: whenever `matchesPattern` succeeds on two parsed filenames,
the returned slot list is exactly the list of digit-run ordinals, among
the candidate pairs that differ textually and pass the padding rule, whose
pair minimizes `|intValue(this) − intValue(other)|`, with every tied
ordinal included. -/
theorem claimC5 (s1 s2 : List Char) (l : List Int)
    (h : (FileNameContent.ofAbsolute s1).matchesPattern (FileNameContent.ofAbsolute s2) = some l) :
    l = specVaryOrdinals
      (potentialOf (FileNameContent.ofAbsolute s1) (FileNameContent.ofAbsolute s2)) := by
  unfold FileNameContent.matchesPattern at h
  split at h
  · exact absurd h (by simp)
  · split at h
    · exact absurd h (by simp)
    · rename_i pot hcp
      by_cases hemp : pot.isEmpty = true
      · rw [if_pos hemp] at h
        exact absurd h (by simp)
      · rw [if_neg hemp] at h
        have hl : l = (selectMinLoop pot INT_MAX []).map (fun p => p.1) :=
          (Option.some_inj.mp h).symm
        have hpotof : potentialOf (FileNameContent.ofAbsolute s1)
            (FileNameContent.ofAbsolute s2) = pot := by
          unfold potentialOf
          rw [hcp]
          rfl
        have hdig := collectPotential_digits _ _ 0 pot
          (parseLoop_frame_digits _ [] [] rfl) (parseLoop_frame_digits _ [] [] rfl) hcp
        have hb : ∀ q ∈ pot, pairDiff q ≤ INT_MAX := fun q hq =>
          pairDiff_le_INT_MAX (hdig q hq).1 (hdig q hq).2
        rw [hpotof, hl, selectMinLoop_eq pot INT_MAX [] (by intro c hc; cases hc)]
        unfold specVaryOrdinals
        simp only [List.nil_append]
        congr 1
        apply List.filter_congr
        intro p hp
        simp only [decide_eq_decide]
        constructor
        · intro hEq q hq
          rw [hEq]
          exact foldlMin_le_mem (List.mem_map_of_mem pairDiff hq) INT_MAX
        · intro hALL
          have hgoal1 : pairDiff p ≤ (pot.map pairDiff).foldl min INT_MAX :=
            le_foldlMin (hb p hp)
              (by intro d hd
                  rcases List.mem_map.mp hd with ⟨q, hq, rfl⟩
                  exact hALL q hq)
          have hgoal2 := foldlMin_le_mem (List.mem_map_of_mem pairDiff hp) INT_MAX
          omega

/-- Witness for C5 at the spec's §8 example: `a1_b2.png` against
`a1_b3.png` (two digit runs, only the second varies) returns slot `[1]`,
not `[0]`, and that is the minimizing tied set. -/
theorem claimC5_witness :
    (FileNameContent.ofAbsolute "a1_b2.png".data).matchesPattern
      (FileNameContent.ofAbsolute "a1_b3.png".data) = some [1]
    ∧ [1] = specVaryOrdinals (potentialOf (FileNameContent.ofAbsolute "a1_b2.png".data)
        (FileNameContent.ofAbsolute "a1_b3.png".data)) :=
  ⟨by decide, claimC5 "a1_b2.png".data "a1_b3.png".data [1] (by decide)⟩

/-! ### C6 machinery: the parse loop against the spec-side canonical form -/

theorem elementsConcat_cons (e : FileNameElement) (L : List FileNameElement) :
    elementsConcat (e :: L) = e.data ++ elementsConcat L := rfl

theorem elementsConcat_append (xs ys : List FileNameElement) :
    elementsConcat (xs ++ ys) = elementsConcat xs ++ elementsConcat ys := by
  induction xs with
  | nil => rfl
  | cons x xs ih =>
    simp only [List.cons_append, elementsConcat_cons, ih, List.append_assoc]

theorem elementsConcat_flushText (text : List Char) :
    elementsConcat (if text ≠ [] then [⟨text, FileNameEltType.TEXT⟩] else []) = text := by
  split
  · simp [elementsConcat]
  · rename_i h
    simp only [ne_eq, not_not] at h
    rw [h]
    rfl

theorem elementsConcat_flushNum (num : List Char) :
    elementsConcat (if num ≠ [] then [⟨num, FileNameEltType.FRAME_NUMBER⟩] else []) = num := by
  split
  · simp [elementsConcat]
  · rename_i h
    simp only [ne_eq, not_not] at h
    rw [h]
    rfl

theorem parseLoop_concat (input : List Char) : ∀ (num text : List Char),
    num = [] ∨ text = [] →
    elementsConcat (parseLoop input num text) = text ++ num ++ input := by
  induction input with
  | nil =>
    intro num text hinv
    simp only [parseLoop, elementsConcat_append, elementsConcat_flushText,
      elementsConcat_flushNum, List.append_nil]
    rcases hinv with rfl | rfl
    · simp
    · simp
  | cons c rest ih =>
    intro num text hinv
    simp only [parseLoop]
    split
    · rw [elementsConcat_append, elementsConcat_flushText, ih (num ++ [c]) [] (Or.inr rfl)]
      simp
    · rw [elementsConcat_append, elementsConcat_flushNum, ih [] (text ++ [c]) (Or.inl rfl)]
      rcases hinv with rfl | rfl
      · simp
      · simp

theorem buildPattern_flushText (text : List Char) (L : List FileNameElement) (k : Nat) :
    buildPattern ((if text ≠ [] then [⟨text, FileNameEltType.TEXT⟩] else []) ++ L) k =
      text ++ buildPattern L k := by
  split
  · simp [buildPattern]
  · rename_i h
    simp only [ne_eq, not_not] at h
    rw [h]
    simp

theorem buildPattern_parseLoop (input : List Char) : ∀ (num text : List Char) (k : Nat),
    num = [] ∨ text = [] →
    buildPattern (parseLoop input num text) k =
      text ++ (if num = [] then specCanonical input k
        else List.replicate (num ++ input.takeWhile Char.isDigit).length '#' ++ natToChars k ++
          specCanonical (input.dropWhile Char.isDigit) (k + 1)) := by
  induction input with
  | nil =>
    intro num text k hinv
    simp only [parseLoop, List.takeWhile_nil, List.dropWhile_nil, List.append_nil]
    by_cases hnum : num = []
    · subst hnum
      rw [if_pos rfl]
      simp only [ne_eq, not_true_eq_false, if_false, List.nil_append]
      rw [show buildPattern (if text ≠ [] then [⟨text, FileNameEltType.TEXT⟩] else []) k =
        buildPattern ((if text ≠ [] then [⟨text, FileNameEltType.TEXT⟩] else []) ++ []) k
        by simp]
      rw [buildPattern_flushText]
      simp [buildPattern, specCanonical]
    · rcases hinv with h | rfl
      · exact absurd h hnum
      · rw [if_neg hnum, if_pos hnum]
        simp [buildPattern, specCanonical]
  | cons c rest ih =>
    intro num text k hinv
    simp only [parseLoop]
    split
    · rename_i hdig
      rw [buildPattern_flushText, ih (num ++ [c]) [] k (Or.inr rfl)]
      rw [if_neg (by simp), List.nil_append]
      by_cases hnum : num = []
      · subst hnum
        rw [if_pos rfl]
        rw [specCanonical, if_pos hdig]
        rw [List.takeWhile_cons, if_pos hdig, List.dropWhile_cons, if_pos hdig]
        simp
      · rw [if_neg hnum]
        rw [List.takeWhile_cons, if_pos hdig, List.dropWhile_cons, if_pos hdig]
        have hlen : ((num ++ [c]) ++ rest.takeWhile Char.isDigit).length =
            (num ++ c :: rest.takeWhile Char.isDigit).length := by
          simp
        rw [hlen]
    · rename_i hndig
      by_cases hnum : num = []
      · subst hnum
        rw [if_pos rfl]
        simp only [ne_eq, not_true_eq_false, if_false, List.nil_append]
        rw [ih [] (text ++ [c]) k (Or.inl rfl), if_pos rfl]
        rw [specCanonical, if_neg hndig]
        simp
      · rcases hinv with h | rfl
        · exact absurd h hnum
        · rw [if_pos hnum, if_neg hnum]
          have hbp : buildPattern
              ([(⟨num, FileNameEltType.FRAME_NUMBER⟩ : FileNameElement)] ++
                parseLoop rest [] ([] ++ [c])) k =
              List.replicate num.length '#' ++ natToChars k ++
                buildPattern (parseLoop rest [] [c]) (k + 1) := by
            simp [buildPattern]
          rw [hbp, ih [] [c] (k + 1) (Or.inl rfl), if_pos rfl]
          rw [List.takeWhile_cons, if_neg hndig, List.dropWhile_cons, if_neg hndig]
          rw [specCanonical, if_neg hndig]
          simp


/-- Claim C6 (amended): the tokenizer does not strip the trailing
`.<ext>` before splitting — the element sequence covers the *entire*
filename (directory part removed), digit runs inside the extension do
contribute `FRAME_NUMBER` elements, and the canonical pattern equals the
entire filename with each maximal digit run replaced by a run of `#` of
the same length followed by its 0-based ordinal among digit runs. -/
theorem claimC6_amended (s : List Char) :
    elementsConcat (FileNameContent.ofAbsolute s).orderedElements =
      (FileNameContent.ofAbsolute s).filename
    ∧ (FileNameContent.ofAbsolute s).generatedPattern =
      specCanonical (FileNameContent.ofAbsolute s).filename 0 := by
  constructor
  · show elementsConcat (parseLoop (removePath s).2 [] []) = (removePath s).2
    rw [parseLoop_concat _ [] [] (Or.inl rfl)]
    simp
  · show buildPattern (parseLoop (removePath s).2 [] []) 0 =
      specCanonical (removePath s).2 0
    rw [buildPattern_parseLoop _ [] [] 0 (Or.inl rfl), if_pos rfl]
    simp

end SequenceParsing
